import Mathlib

set_option maxRecDepth 4000

/-!
Shallow embedding of `src/lib/agentParser.ts` (agent-doc-maker).

The embedding works at the level of already-parsed JSON values: a value of
type `Json` below stands for the result of a successful `JSON.parse` call on
the input text.  `MalformedInputError` (a `JSON.parse` tokenization failure)
is therefore outside the model; "every syntactically valid JSON input"
corresponds to quantifying over all values of `Json`.

Modelling conventions, used consistently below:
* JSON numbers are modelled as `Int`.  Real agent exports carry integer
  millisecond fields; JavaScript numbers are IEEE-754 doubles, which agree
  with the integers up to 2^53.
* JavaScript property access `o.k` yields `none` ("undefined") on
  non-objects, and *throws* on `null`; the throwing sites are modelled
  explicitly with `Except.error` in the parser.
* The TypeScript interfaces declare the extracted scalar fields as `string`;
  the embedding coerces extracted JSON values to strings with `jsToString`,
  which follows JavaScript's `String()` / template-literal coercion.
-/

/-- A parsed JSON value (the result of `JSON.parse`). -/
inductive Json where
  | null : Json
  | bool (b : Bool) : Json
  | num (n : Int) : Json
  | str (s : String) : Json
  | arr (elems : List Json) : Json
  | obj (fields : List (String × Json)) : Json

namespace Json

/-- Is this value the JSON `null`?  (Property access on `null` throws.) -/
def isNull : Json → Bool
  | .null => true
  | _ => false

/-- JavaScript truthiness of a JSON value: `null`, `false`, `0` and `""` are
falsy; every array and object (even empty) is truthy.  (`NaN` and `undefined`
cannot occur inside a parsed JSON value.) -/
def truthy : Json → Bool
  | .null => false
  | .bool b => b
  | .num n => n != 0
  | .str s => s != ""
  | .arr _ => true
  | .obj _ => true

/-- Property access `o[k]` on a JSON value that is known not to be `null`:
`none` models JavaScript's `undefined`.  `JSON.parse` keeps the *last*
occurrence of a duplicated object key, hence the `foldl`. -/
def get? : Json → String → Option Json
  | .obj fields, k => fields.foldl (fun acc kv => if kv.1 = k then some kv.2 else acc) none
  | _, _ => none

end Json

/-- Optional chaining `a?.k`: `undefined` when `a` is `null`/`undefined`,
otherwise plain property access. -/
def oget? (o : Option Json) (k : String) : Option Json :=
  match o with
  | some j => if j.isNull then none else j.get? k
  | none => none

/-- Truthiness of a possibly-undefined value (`undefined` is falsy). -/
def truthyO (o : Option Json) : Bool :=
  match o with
  | some j => j.truthy
  | none => false

/-- The value selected by a JavaScript `a || b || c || ...` chain: the first
truthy candidate, or `none` when every candidate is falsy. -/
def firstTruthy : List (Option Json) → Option Json
  | [] => none
  | c :: cs => match c with
      | some j => if j.truthy then some j else firstTruthy cs
      | none => firstTruthy cs

mutual

/-- JavaScript `String()` coercion of a JSON value, as performed by template
literals such as `` `${value}ms` ``.  Arrays stringify as their elements
joined with `","` (a `null` element contributing `""`), objects as the
literal `"[object Object]"`. -/
def jsToString : Json → String
  | .null => "null"
  | .bool b => if b then "true" else "false"
  | .num n => toString n
  | .str s => s
  | .arr elems => String.intercalate "," (jsElemStrings elems)
  | .obj _ => "[object Object]"

/-- Stringified elements of an array under `Array.prototype.toString`. -/
def jsElemStrings : List Json → List String
  | [] => []
  | .null :: rest => "" :: jsElemStrings rest
  | j :: rest => jsToString j :: jsElemStrings rest

end

/-- The string produced by a fallback chain `p1 || p2 || ... || dflt`
whose result is interpolated into a string position: the first truthy
candidate coerced with `jsToString`, or the (string) default. -/
def chainStr (cands : List (Option Json)) (dflt : String) : String :=
  match firstTruthy cands with
  | some j => jsToString j
  | none => dflt

/-- Round half up: the integer nearest to `num / den` (for `den > 0`),
with ties going up.  `Number.prototype.toFixed` rounds this way on the
exact value of its receiver. -/
def roundHalfUp (num den : Int) : Int :=
  (2 * num + den) / (2 * den)

/-- Model of `formatDuration` (src/lib/agentParser.ts:65-69): formats a millisecond
count.  `toFixed(0)` / `toFixed(1)` are modelled as round-half-up on the
exact rational `ms/1000` resp. `ms/60000`; for integer `ms` this matches the
JavaScript result except possibly at exact half-tenth minute boundaries
(`ms % 6000 = 3000`), where the IEEE-754 double representation of
`ms/60000` decides the direction, and for `|ms| ≥ 2^53` where JavaScript
numbers lose integer precision. -/
def formatDuration (ms : Int) : String :=
  if ms < 1000 then toString ms ++ "ms"
  else if ms < 60000 then toString (roundHalfUp ms 1000) ++ "s"
  else
    let tenths := roundHalfUp ms 6000
    toString (tenths / 10) ++ "." ++ toString (tenths % 10) ++ " min"

/-- Interface `AgentCondition` (src/lib/agentParser.ts:4-7): one outgoing edge. -/
structure AgentCondition where
  condition : String
  targetNodeId : String
  deriving DecidableEq

/-- Interface `AgentNode` (src/lib/agentParser.ts:9-16). -/
structure AgentNode where
  id : String
  name : String
  type : String
  prompt : String
  conditions : List String
  next : List AgentCondition
  deriving DecidableEq

/-- Interface `AgentTool` (src/lib/agentParser.ts:35-40). -/
structure AgentTool where
  id : String
  name : String
  type : String
  description : String
  deriving DecidableEq

/-- Interface `PostCallAnalysis` (src/lib/agentParser.ts:42-48).  The TypeScript
interface declares `choices`/`examples` as optional `string[]`; the
embedding records them only when the source JSON actually holds an array
(other shapes would make the later `.join` call throw in JavaScript). -/
structure PostCallAnalysis where
  name : String
  description : String
  type : String
  choices : Option (List String)
  examples : Option (List String)
  deriving DecidableEq

/-- Interface `ParsedAgent` (src/lib/agentParser.ts:50-60): the canonical agent
document.  Settings are an ordered association list, mirroring the
insertion-ordered plain object used by the source. -/
structure ParsedAgent where
  id : String
  name : String
  description : String
  settings : List (String × Json)
  nodes : List AgentNode
  tools : List AgentTool
  postCallAnalysis : List PostCallAnalysis
  globalPrompt : String
  rawJson : Json

/-! ### The Normalizer: `parseAgent` (src/lib/agentParser.ts:79-218)

The parser runs in `Except String` so that the places where the JavaScript
code would throw a `TypeError` (property access on `null`, `.map` on a
truthy non-array) are explicit. -/

/-- Agent id chain (line 83): `json.agent_id || json.id || json.agentId || 'unknown'`. -/
def agentIdOf (json : Json) : String :=
  chainStr [json.get? "agent_id", json.get? "id", json.get? "agentId"] "unknown"

/-- Agent name chain (line 84): `json.agent_name || json.name || json.agentName || 'Unnamed Agent'`. -/
def agentNameOf (json : Json) : String :=
  chainStr [json.get? "agent_name", json.get? "name", json.get? "agentName"] "Unnamed Agent"

/-- Description chain (line 85). -/
def descriptionOf (json : Json) : String :=
  chainStr [json.get? "description", json.get? "version_title", json.get? "desc"] ""

/-- Global prompt chain (line 88): `json.conversationFlow?.global_prompt || json.global_prompt || ''`. -/
def globalPromptOf (json : Json) : String :=
  chainStr [oget? (json.get? "conversationFlow") "global_prompt", json.get? "global_prompt"] ""

/-- One single-path settings probe (lines 94-111): `if (<value truthy>) settings.<key> = <value>`.
The probes write distinct fresh keys into an initially empty object, so the
sequence of assignments is modelled as a concatenation of singleton lists. -/
def settingsProbe (key : String) (v : Option Json) : List (String × Json) :=
  match v with
  | some j => if j.truthy then [(key, j)] else []
  | none => []

/-- One duration probe (lines 114-116): `if (json.<field>) settings.<key> = formatDuration(json.<field>)`.
Duration fields are modelled as numeric (see `formatDuration`); `0` is falsy
and skipped, like any other falsy value. -/
def durationProbe (key : String) (v : Option Json) : List (String × Json) :=
  match v with
  | some (Json.num n) => if n != 0 then [(key, Json.str (formatDuration n))] else []
  | _ => []

/-- The temperature probe (lines 97-99): guarded by `!== undefined`, not by
truthiness, so a present falsy value (0, `null`) is still stored. -/
def tempProbe (v : Option Json) : List (String × Json) :=
  match v with
  | some j => [("temperature", j)]
  | none => []

/-- The named settings (lines 91-116), in assignment order. -/
def namedSettings (json : Json) : List (String × Json) :=
  settingsProbe "model" (oget? (oget? (json.get? "conversationFlow") "model_choice") "model")
  ++ tempProbe (oget? (json.get? "conversationFlow") "model_temperature")
  ++ settingsProbe "language" (json.get? "language")
  ++ settingsProbe "voice" (json.get? "voice_id")
  ++ settingsProbe "voiceSpeed" (json.get? "voice_speed")
  ++ settingsProbe "voiceTemperature" (json.get? "voice_temperature")
  ++ settingsProbe "responsiveness" (json.get? "responsiveness")
  ++ settingsProbe "interruptionSensitivity" (json.get? "interruption_sensitivity")
  ++ settingsProbe "ambientSound" (json.get? "ambient_sound")
  ++ settingsProbe "sttMode" (json.get? "stt_mode")
  ++ durationProbe "maxCallDuration" (json.get? "max_call_duration_ms")
  ++ durationProbe "reminderTrigger" (json.get? "reminder_trigger_ms")
  ++ durationProbe "endCallAfterSilence" (json.get? "end_call_after_silence_ms")

/-- JavaScript property assignment `settings[key] = value` on an ordered
plain object: an existing key keeps its position and gets the new value, a
fresh key is appended. -/
def insertSetting : List (String × Json) → String → Json → List (String × Json)
  | [], k, v => [(k, v)]
  | kv :: rest, k, v =>
      if kv.1 = k then (kv.1, v) :: rest else kv :: insertSetting rest k v

/-- Reading a settings key (first match; the object's keys are unique). -/
def lookupSetting : List (String × Json) → String → Option Json
  | [], _ => none
  | kv :: rest, k => if kv.1 = k then some kv.2 else lookupSetting rest k

/-- Model of `Object.entries` of a JSON value: the fields of an object, the indexed
elements of an array or string, nothing for other primitives.  (The model
ignores JavaScript's numeric-key reordering, which no claim depends on.) -/
def jsEntries : Json → List (String × Json)
  | .obj fields => fields
  | .arr xs => (xs.enum).map (fun p => (toString p.1, p.2))
  | .str s => (s.data.enum).map (fun p => (toString p.1, Json.str (String.singleton p.2)))
  | _ => []

/-- The legacy-merge step function (lines 120-124): skip `null` values,
assign the rest. -/
def legacyStep (acc : List (String × Json)) (kv : String × Json) : List (String × Json) :=
  if kv.2.isNull then acc else insertSetting acc kv.1 kv.2

/-- Legacy settings merge (lines 119-125): every entry of a truthy
`json.settings` value whose value is not `null` is assigned into the
settings object, overwriting named keys. -/
def mergeLegacySettings (json : Json) (st : List (String × Json)) : List (String × Json) :=
  match json.get? "settings" with
  | some s =>
      if s.truthy then (jsEntries s).foldl legacyStep st
      else st
  | none => st

/-- The full settings object (lines 91-125). -/
def buildSettings (json : Json) : List (String × Json) :=
  mergeLegacySettings json (namedSettings json)

/-- One entry of a node's generic `edges` array (lines 144-150): resolve the
condition and target chains; push one edge when the target is truthy, none
otherwise.  Accessing the entry's properties throws when the entry is `null`. -/
def genericEdge (edge : Json) : Except String (List AgentCondition) :=
  if edge.isNull then .error "TypeError: cannot read properties of null (edges entry)"
  else
    let condition := chainStr
      [oget? (edge.get? "transition_condition") "prompt", edge.get? "condition", edge.get? "label"]
      "default"
    match firstTruthy [edge.get? "destination_node_id", edge.get? "targetNodeId",
                       edge.get? "target", edge.get? "next_node"] with
    | some t => .ok [{ condition := condition, targetNodeId := jsToString t }]
    | none => .ok []

/-- The edges contributed by a node's generic `edges` collection
(lines 143-151); contributes nothing when `edges` is not an array. -/
def genericEdgesOf (node : Json) : Except String (List AgentCondition) :=
  match node.get? "edges" with
  | some (Json.arr es) => do
      let parts ← es.mapM genericEdge
      pure parts.flatten
  | _ => pure []

/-- The distinguished else edge (lines 154-159): present exactly when
`node.else_edge?.destination_node_id` is truthy. -/
def elseEdgeOf (node : Json) : List AgentCondition :=
  match oget? (node.get? "else_edge") "destination_node_id" with
  | some t => if t.truthy then [{ condition := "Else", targetNodeId := jsToString t }] else []
  | none => []

/-- The distinguished skip-response edge (lines 162-167). -/
def skipEdgeOf (node : Json) : List AgentCondition :=
  match oget? (node.get? "skip_response_edge") "destination_node_id" with
  | some t =>
      if t.truthy then [{ condition := "Skip Response", targetNodeId := jsToString t }] else []
  | none => []

/-- One entry of the legacy flat `next` array (lines 171-176): condition and
target each resolve through their own chain; the edge is pushed
unconditionally, with an empty-string target when no path is truthy. -/
def legacyEdge (n : Json) : Except String AgentCondition :=
  if n.isNull then .error "TypeError: cannot read properties of null (next entry)"
  else .ok
    { condition := chainStr [n.get? "condition", n.get? "label", n.get? "trigger"] "default"
      targetNodeId := chainStr [n.get? "targetNodeId", n.get? "target",
                                n.get? "next_node", n.get? "nextNode"] "" }

/-- The edges contributed by a node's legacy `next` array (lines 170-177). -/
def legacyEdgesOf (node : Json) : Except String (List AgentCondition) :=
  match node.get? "next" with
  | some (Json.arr ns) => ns.mapM legacyEdge
  | _ => pure []

/-- One node of the node-list source (lines 130-187).  `tok i` stands for
the random token `Math.random().toString(36).substr(2, 9)` generated for the
`i`-th node when it carries no identifier. -/
def parseNode (tok : Nat → String) (i : Nat) (node : Json) : Except String AgentNode :=
  if node.isNull then .error "TypeError: cannot read properties of null (node)"
  else do
    let prompt := chainStr [oget? (node.get? "instruction") "text", node.get? "prompt",
                            node.get? "instructions", node.get? "content"] ""
    let conditions :=
      match oget? (oget? (node.get? "else_edge") "transition_condition") "prompt" with
      | some v => if v.truthy then ["Else: " ++ jsToString v] else []
      | none => []
    let generic ← genericEdgesOf node
    let legacy ← legacyEdgesOf node
    pure
      { id := chainStr [node.get? "id", node.get? "node_id", node.get? "nodeId"]
                ("node_" ++ tok i)
        name := chainStr [node.get? "name", node.get? "label", node.get? "title"] "Unnamed Node"
        type := chainStr [node.get? "type", node.get? "node_type", node.get? "nodeType"] "unknown"
        prompt := prompt
        conditions := conditions
        next := generic ++ elseEdgeOf node ++ skipEdgeOf node ++ legacy }

/-- The node-list source chain (line 128) followed by the `.map` over it
(lines 130-187): the chain's default `[]` maps to no nodes, a truthy
non-array source makes `.map` throw. -/
def parseNodes (tok : Nat → String) (json : Json) : Except String (List AgentNode) :=
  match firstTruthy [oget? (json.get? "conversationFlow") "nodes", json.get? "nodes",
                     oget? (json.get? "flow") "nodes", json.get? "steps"] with
  | none => pure []
  | some (Json.arr xs) => (xs.enum).mapM (fun p => parseNode tok p.1 p.2)
  | some _ => .error "TypeError: rawNodes.map is not a function"

/-- One tool entry (lines 191-196). -/
def parseTool (tool : Json) : Except String AgentTool :=
  if tool.isNull then .error "TypeError: cannot read properties of null (tool)"
  else .ok
    { id := chainStr [tool.get? "tool_id", tool.get? "id"] ""
      name := chainStr [tool.get? "name"] "Unnamed Tool"
      type := chainStr [tool.get? "type"] "unknown"
      description := chainStr [tool.get? "description"] "" }

/-- The tools source chain and map (lines 190-196). -/
def parseTools (json : Json) : Except String (List AgentTool) :=
  match firstTruthy [oget? (json.get? "conversationFlow") "tools", json.get? "tools"] with
  | none => pure []
  | some (Json.arr xs) => xs.mapM parseTool
  | some _ => .error "TypeError: rawTools.map is not a function"

/-- One post-call analysis entry (lines 199-205).  `choices`/`examples` are
stored when the source holds an array of values (see `PostCallAnalysis`). -/
def parseAnalysisField (item : Json) : Except String PostCallAnalysis :=
  if item.isNull then .error "TypeError: cannot read properties of null (analysis)"
  else .ok
    { name := chainStr [item.get? "name"] ""
      description := chainStr [item.get? "description"] ""
      type := chainStr [item.get? "type"] "string"
      choices := match item.get? "choices" with
        | some (Json.arr xs) => some (xs.map jsToString)
        | _ => none
      examples := match item.get? "examples" with
        | some (Json.arr xs) => some (xs.map jsToString)
        | _ => none }

/-- The chain `json.post_call_analysis_data || []` followed by `.map` (line 199). -/
def parsePostCall (json : Json) : Except String (List PostCallAnalysis) :=
  match json.get? "post_call_analysis_data" with
  | some v =>
      if v.truthy then
        match v with
        | Json.arr xs => xs.mapM parseAnalysisField
        | _ => .error "TypeError: rawAnalysis.map is not a function"
      else pure []
  | none => pure []

/-- Model of `parseAgent` (src/lib/agentParser.ts:79-218), after `JSON.parse`.
The first property access (`json.agent_id`, line 83) throws when the parsed
top-level value is `null`; everything else proceeds by the fallback chains
above and the record literal of lines 207-217. -/
def parseAgent (tok : Nat → String) (json : Json) : Except String ParsedAgent :=
  if json.isNull then .error "TypeError: cannot read properties of null (json)"
  else do
    let nodes ← parseNodes tok json
    let tools ← parseTools json
    let postCallAnalysis ← parsePostCall json
    pure
      { id := agentIdOf json
        name := agentNameOf json
        description := descriptionOf json
        settings := buildSettings json
        nodes := nodes
        tools := tools
        postCallAnalysis := postCallAnalysis
        globalPrompt := globalPromptOf json
        rawJson := json }

/-! ### DiagramGenerator: `generateMermaid` (src/lib/agentParser.ts:223-265) -/

/-- A character matched by the JavaScript character class `[\w\s]`
(ASCII model: word characters and whitespace). -/
def wordOrSpace (c : Char) : Bool :=
  c.isAlphanum || c == '_' || c == ' ' || c == '\t' || c == '\n' || c == '\r'

/-- Sanitization `s.replace(/[^\w\s]/g, '').substring(0, n)`: strip everything but word
characters and spaces, then truncate. -/
def sanitizeText (n : Nat) (s : String) : String :=
  (String.mk (s.data.filter wordOrSpace)).take n

/-- Hyphen-to-underscore replacement (a global regex replace in the source):
node identifiers get every `-` mapped to `_`. -/
def sanitizeMermaidId (s : String) : String :=
  s.map (fun c => if c = '-' then '_' else c)

/-- Does `pat` occur at the head of `cs`? -/
def charsPrefixOf : List Char → List Char → Bool
  | [], _ => true
  | _ :: _, [] => false
  | p :: ps, c :: cs => p == c && charsPrefixOf ps cs

/-- Does `pat` occur anywhere in the character list? -/
def jsIncludesAux (pat : List Char) : List Char → Bool
  | [] => charsPrefixOf pat []
  | c :: cs => charsPrefixOf pat (c :: cs) || jsIncludesAux pat cs

/-- Model of `String.prototype.includes`. -/
def jsIncludes (s pat : String) : Bool :=
  jsIncludesAux pat.data s.data

/-- Splitting a string on newline characters, accumulator-style
(`s.split('\x0a')`): the decomposition of generator output into its
physical lines. -/
def splitLinesGo (acc : List Char) : List Char → List String
  | [] => [String.mk acc.reverse]
  | c :: rest =>
      if c = '
' then String.mk acc.reverse :: splitLinesGo [] rest
      else splitLinesGo (c :: acc) rest

/-- The physical lines of a piece of generator output. -/
def splitLines (s : String) : List String :=
  splitLinesGo [] s.data

/-- Node shape selection (lines 236-247), first matching rule wins. -/
def mermaidShape (node : AgentNode) : String :=
  let sanitizedName := sanitizeText 25 node.name
  if node.type = "end" then "([" ++ sanitizedName ++ "])"
  else if jsIncludes node.id "start" then "((" ++ sanitizedName ++ "))"
  else if node.type = "branch" then "\x7b" ++ sanitizedName ++ "\x7d"
  else if node.type = "function" then "[/" ++ sanitizedName ++ "/]"
  else "[" ++ sanitizedName ++ "]"

/-- One node-declaration line (line 248). -/
def mermaidNodeDecl (node : AgentNode) : String :=
  "  " ++ sanitizeMermaidId node.id ++ mermaidShape node

/-- The text of one retained edge line (lines 256-260): `default` renders
unlabeled, `Else` with a literal label, anything else sanitized/truncated. -/
def mermaidEdgeText (srcId : String) (c : AgentCondition) : String :=
  let conditionLabel :=
    if c.condition != "default" && c.condition != "Else" then
      "|" ++ sanitizeText 15 c.condition ++ "|"
    else if c.condition = "Else" then "|Else|" else ""
  "  " ++ sanitizeMermaidId srcId ++ " -->" ++ conditionLabel ++ " "
    ++ sanitizeMermaidId c.targetNodeId

/-- One edge of the connections loop (lines 254-261): an edge with a falsy
(empty) target produces no line. -/
def mermaidEdgeLine (srcId : String) (c : AgentCondition) : Option String :=
  if c.targetNodeId = "" then none else some (mermaidEdgeText srcId c)

/-- All connection lines (lines 252-262), nodes in order, each node's edges
in `next` order. -/
def mermaidConnLines (p : ParsedAgent) : List String :=
  p.nodes.flatMap (fun n => n.next.filterMap (mermaidEdgeLine n.id))

/-- The line list of `generateMermaid` (lines 224-264). -/
def mermaidLines (p : ParsedAgent) : List String :=
  if p.nodes.isEmpty then ["graph TD", "  NoNodes[No nodes found]"]
  else "graph TD" :: (p.nodes.map mermaidNodeDecl ++ mermaidConnLines p)

/-- Model of `Array.prototype.join('\n')`. -/
def joinLines : List String → String
  | [] => ""
  | [l] => l
  | l :: ls => l ++ "\n" ++ joinLines ls

/-- Model of `generateMermaid` (src/lib/agentParser.ts:223-265). -/
def generateMermaid (p : ParsedAgent) : String :=
  joinLines (mermaidLines p)

/-! ### `JSON.stringify(value, null, 2)` and settings-key humanization -/

/-- The 2-space indentation prefix at nesting depth `lvl`. -/
def pad (lvl : Nat) : String :=
  String.join (List.replicate lvl "  ")

/-- A JSON string literal (double-quoted, common escapes; rare control
characters are left as-is where `JSON.stringify` would use `\uXXXX`). -/
def quoteJson (s : String) : String :=
  "\"" ++ String.join (s.data.map (fun c =>
    if c = '"' then "\\\""
    else if c = '\\' then "\\\\"
    else if c = '\n' then "\\n"
    else if c = '\r' then "\\r"
    else if c = '\t' then "\\t"
    else String.singleton c)) ++ "\""

mutual

/-- Model of `JSON.stringify(value, null, 2)` at nesting depth `lvl`. -/
def jsonStringify (lvl : Nat) : Json → String
  | .null => "null"
  | .bool b => if b then "true" else "false"
  | .num n => toString n
  | .str s => quoteJson s
  | .arr [] => "[]"
  | .arr (x :: xs) =>
      "[\n" ++ String.intercalate ",\n" (stringifyItems (lvl + 1) (x :: xs))
        ++ "\n" ++ pad lvl ++ "]"
  | .obj [] => "\x7b\x7d"
  | .obj (f :: fs) =>
      "\x7b\n" ++ String.intercalate ",\n" (stringifyFields (lvl + 1) (f :: fs))
        ++ "\n" ++ pad lvl ++ "\x7d"

/-- Array items, one indented line each. -/
def stringifyItems (lvl : Nat) : List Json → List String
  | [] => []
  | x :: xs => (pad lvl ++ jsonStringify lvl x) :: stringifyItems lvl xs

/-- Object fields, one indented `"key": value` line each. -/
def stringifyFields (lvl : Nat) : List (String × Json) → List String
  | [] => []
  | f :: fs => (pad lvl ++ quoteJson f.1 ++ ": " ++ jsonStringify lvl f.2) :: stringifyFields lvl fs

end

/-- Humanization `key.replace(/([A-Z])/g, ' $1').replace(/^./, str => str.toUpperCase())`
(line 296): a space before every capital, then the first character
uppercased. -/
def humanizeKey (key : String) : String :=
  let spread := key.data.flatMap (fun c => if c.isUpper then [' ', c] else [c])
  match spread with
  | [] => ""
  | c :: cs => String.mk (c.toUpper :: cs)

/-! ### MarkdownRenderer: `generateMarkdown` (src/lib/agentParser.ts:270-400)

`markdownLines` is the `lines` array the source pushes into, section by
section; `generateMarkdown` is its `join('\n')`. -/

/-- One settings table row (lines 295-298). -/
def mdSettingsRow (kv : String × Json) : String :=
  "| **" ++ humanizeKey kv.1 ++ "** | " ++ jsToString kv.2 ++ " |"

/-- One `condition → target` entry of the Next Nodes cell (line 327). -/
def mdEdgeText (e : AgentCondition) : String :=
  e.condition ++ " → `" ++ e.targetNodeId ++ "`"

/-- The Next Nodes cell (lines 326-328): every edge of `next`, unfiltered,
joined with `"; "`; an em-dash when there are none. -/
def mdNextCell (n : AgentNode) : String :=
  if n.next.isEmpty then "—" else String.intercalate "; " (n.next.map mdEdgeText)

/-- One node-summary table row (line 330). -/
def mdNodeRow (n : AgentNode) : String :=
  "| `" ++ n.id ++ "` | " ++ n.name ++ " | " ++ n.type ++ " | " ++ mdNextCell n ++ " |"

/-- Title lines (lines 274-275). -/
def mdHeader (p : ParsedAgent) : List String :=
  ["# " ++ p.name, ""]

/-- Overview table (lines 278-286). -/
def mdOverview (p : ParsedAgent) : List String :=
  ["## Agent Overview", "", "| Property | Value |", "|----------|-------|",
   "| **Agent ID** | `" ++ p.id ++ "` |", "| **Name** | " ++ p.name ++ " |"]
  ++ (if p.description = "" then [] else ["| **Version/Description** | " ++ p.description ++ " |"])

/-- Settings table (lines 289-299), present only when settings are non-empty. -/
def mdSettings (p : ParsedAgent) : List String :=
  if p.settings.isEmpty then []
  else ["", "### Settings", "", "| Setting | Value |", "|---------|-------|"]
    ++ p.settings.map mdSettingsRow

/-- Global prompt block (lines 302-309), present only when non-empty. -/
def mdGlobal (p : ParsedAgent) : List String :=
  if p.globalPrompt = "" then []
  else ["", "## Global Prompt", "", "```", p.globalPrompt, "```"]

/-- Node summary section (lines 311-332): the node-count line and the table,
or a placeholder when there are no nodes. -/
def mdNodesSection (p : ParsedAgent) : List String :=
  ["", "## Conversation Flow Nodes", ""]
  ++ (if p.nodes.isEmpty then ["*No nodes found in this agent.*"]
      else ("Total nodes: " ++ toString p.nodes.length) :: "" ::
        "| Node ID | Name | Type | Next Nodes |" :: "|---------|------|------|------------|" ::
        p.nodes.map mdNodeRow)

/-- Flow diagram block (lines 334-342); the embedded diagram source is one
pushed element that itself contains newlines. -/
def mdDiagram (p : ParsedAgent) : List String :=
  ["", "## Flow Diagram", "", "```mermaid", generateMermaid p, "```", ""]

/-- Detailed prompt block for one node (lines 349-359). -/
def mdPromptBlock (n : AgentNode) : List String :=
  if n.prompt = "" then []
  else ["### " ++ n.name, "**ID:** `" ++ n.id ++ "` | **Type:** " ++ n.type,
        "", "```", n.prompt, "```", ""]

/-- Node prompts section (lines 345-360), present when some prompt is non-empty. -/
def mdPrompts (p : ParsedAgent) : List String :=
  if p.nodes.any (fun n => n.prompt != "") then
    ["## Node Prompts", ""] ++ p.nodes.flatMap mdPromptBlock
  else []

/-- One tools table row (line 369). -/
def mdToolRow (t : AgentTool) : String :=
  "| `" ++ t.id ++ "` | " ++ t.name ++ " | " ++ t.type ++ " | " ++ t.description ++ " |"

/-- Tools section (lines 363-372). -/
def mdTools (p : ParsedAgent) : List String :=
  if p.tools.isEmpty then []
  else ["## Tools", "", "| Tool ID | Name | Type | Description |",
        "|---------|------|------|-------------|"]
    ++ p.tools.map mdToolRow ++ [""]

/-- The Options/Examples cell fallback over `examples` (line 381). -/
def mdOptionsFromExamples (f : PostCallAnalysis) : String :=
  match f.examples with
  | some es => let e := String.intercalate ", " es; if e != "" then e else "—"
  | none => "—"

/-- The cell `field.choices?.join(', ') || field.examples?.join(', ') || '—'` (line 381). -/
def mdOptionsCell (f : PostCallAnalysis) : String :=
  match f.choices with
  | some cs => let s := String.intercalate ", " cs
               if s != "" then s else mdOptionsFromExamples f
  | none => mdOptionsFromExamples f

/-- One post-call analysis row (line 382). -/
def mdPcaRow (f : PostCallAnalysis) : String :=
  "| " ++ f.name ++ " | " ++ f.type ++ " | " ++ f.description ++ " | " ++ mdOptionsCell f ++ " |"

/-- Post-call analysis section (lines 375-385). -/
def mdPca (p : ParsedAgent) : List String :=
  if p.postCallAnalysis.isEmpty then []
  else ["## Post-Call Analysis Fields", "",
        "| Field | Type | Description | Options/Examples |",
        "|-------|------|-------------|------------------|"]
    ++ p.postCallAnalysis.map mdPcaRow ++ [""]

/-- Raw JSON section (lines 388-397). -/
def mdRawJson (p : ParsedAgent) : List String :=
  ["## Raw JSON", "", "<details>", "<summary>Click to expand raw JSON</summary>", "",
   "```json", jsonStringify 0 p.rawJson, "```", "", "</details>"]

/-- The full `lines` array of `generateMarkdown`, in push order. -/
def markdownLines (p : ParsedAgent) : List String :=
  mdHeader p ++ mdOverview p ++ mdSettings p ++ mdGlobal p ++ mdNodesSection p
  ++ mdDiagram p ++ mdPrompts p ++ mdTools p ++ mdPca p ++ mdRawJson p

/-- Model of `generateMarkdown` (src/lib/agentParser.ts:270-400). -/
def generateMarkdown (p : ParsedAgent) : String :=
  joinLines (markdownLines p)

/-! ### HtmlRenderer: the nodes-table cells of `generateHtml`
(src/lib/agentParser.ts:413-430); only the edge-list cell is needed here. -/

/-- One edge span of the HTML Next Nodes cell (line 418). -/
def htmlEdgeSpan (e : AgentCondition) : String :=
  "<span class=\"next-node\">" ++ e.condition ++ " → " ++ e.targetNodeId ++ "</span>"

/-- The HTML Next Nodes cell (lines 417-419): every edge of `next`,
unfiltered, joined with `<br>`; an em-dash when there are none. -/
def htmlNextCell (n : AgentNode) : String :=
  if n.next.isEmpty then "—" else String.intercalate "<br>" (n.next.map htmlEdgeSpan)

/-- The per-node condition under which the node `.map` callback
(lines 130-187) cannot throw: the node itself is not `null`, and its
`edges` / `next` arrays (when arrays) contain no `null` entry. -/
def goodNodeJson (n : Json) : Bool :=
  !n.isNull &&
  (match n.get? "edges" with
   | some (Json.arr es) => es.all (fun e => !e.isNull)
   | _ => true) &&
  (match n.get? "next" with
   | some (Json.arr ns) => ns.all (fun m => !m.isNull)
   | _ => true)

/-- A `source || []` collection can be `.map`ped over iff the chain result
is absent (default `[]`) or an array of acceptable elements. -/
def goodSource (o : Option Json) (elemOk : Json → Bool) : Bool :=
  match o with
  | none => true
  | some (Json.arr xs) => xs.all elemOk
  | some _ => false

/-- The exact conditions under which `parseAgent` does not throw: the
parsed top-level value is not `null`, and each of the three mapped
collections (node source chain, tool source chain,
`post_call_analysis_data`) is either defaulted or an array of non-throwing
elements. -/
def parseSucceedsOn (j : Json) : Bool :=
  !j.isNull &&
  goodSource (firstTruthy [oget? (j.get? "conversationFlow") "nodes", j.get? "nodes",
                           oget? (j.get? "flow") "nodes", j.get? "steps"]) goodNodeJson &&
  goodSource (firstTruthy [oget? (j.get? "conversationFlow") "tools", j.get? "tools"])
             (fun t => !t.isNull) &&
  (match j.get? "post_call_analysis_data" with
   | some v =>
       if v.truthy then
         match v with
         | Json.arr xs => xs.all (fun x => !x.isNull)
         | _ => false
       else true
   | none => true)

/-! ### Helper lemmas -/

/-- Successful parses decompose into the per-field extractors. -/
theorem parseAgent_ok_destruct (tok : Nat → String) (j : Json) (d : ParsedAgent)
    (h : parseAgent tok j = .ok d) :
    d.id = agentIdOf j ∧ d.name = agentNameOf j ∧ d.description = descriptionOf j ∧
    d.settings = buildSettings j ∧ d.globalPrompt = globalPromptOf j ∧ d.rawJson = j ∧
    parseNodes tok j = .ok d.nodes ∧ parseTools j = .ok d.tools ∧
    parsePostCall j = .ok d.postCallAnalysis := by
  unfold parseAgent at h
  split at h
  · exact absurd h (by simp)
  · cases hn : parseNodes tok j with
    | error e => rw [hn] at h; simp [Bind.bind, Except.bind] at h
    | ok ns =>
      cases ht : parseTools j with
      | error e => rw [hn, ht] at h; simp [Bind.bind, Except.bind] at h
      | ok ts =>
        cases hp : parsePostCall j with
        | error e => rw [hn, ht, hp] at h; simp [Bind.bind, Except.bind] at h
        | ok ps =>
          rw [hn, ht, hp] at h
          simp only [Bind.bind, Except.bind, Pure.pure, Except.pure, Except.ok.injEq] at h
          subst h
          simp [hn, ht, hp]

/-- A `mapM` over `Except` succeeds when every element does. -/
theorem mapM_ok_of_forall {α β : Type} (f : α → Except String β) :
    ∀ xs : List α, (∀ x ∈ xs, ∃ y, f x = .ok y) → ∃ ys, xs.mapM f = .ok ys := by
  intro xs h
  induction xs with
  | nil => exact ⟨[], rfl⟩
  | cons a as ih =>
    obtain ⟨y, hy⟩ := h a (List.mem_cons_self a as)
    obtain ⟨ys, hys⟩ := ih (fun x hx => h x (List.mem_cons_of_mem a hx))
    refine ⟨y :: ys, ?_⟩
    rw [List.mapM_cons, hy, hys]
    rfl

/-- A successful `mapM` over `Except` contains the image of each element. -/
theorem mapM_ok_mem {α β : Type} (f : α → Except String β) :
    ∀ (xs : List α) (ys : List β), xs.mapM f = .ok ys →
      ∀ x ∈ xs, ∀ y, f x = .ok y → y ∈ ys := by
  intro xs
  induction xs with
  | nil => intro ys h x hx; exact absurd hx (List.not_mem_nil x)
  | cons a as ih =>
    intro ys h x hx y hy
    rw [List.mapM_cons] at h
    cases ha : f a with
    | error e => rw [ha] at h; simp [Bind.bind, Except.bind] at h
    | ok b =>
      rw [ha] at h
      cases has : as.mapM f with
      | error e =>
        rw [has] at h; simp [Bind.bind, Except.bind] at h
      | ok bs =>
        rw [has] at h
        simp only [Bind.bind, Except.bind, Pure.pure, Except.pure, Except.ok.injEq] at h
        subst h
        rcases List.mem_cons.mp hx with rfl | hxs
        · rw [ha] at hy
          cases hy
          exact List.mem_cons_self _ _
        · exact List.mem_cons_of_mem _ (ih bs has x hxs y hy)

/-- Assigning a key makes it readable. -/
theorem lookup_insert_self (st : List (String × Json)) (k : String) (v : Json) :
    lookupSetting (insertSetting st k v) k = some v := by
  induction st with
  | nil => simp [insertSetting, lookupSetting]
  | cons kv rest ih =>
    by_cases h : kv.1 = k
    · simp [insertSetting, h, lookupSetting]
    · simp [insertSetting, h, lookupSetting, ih]

/-- Assigning one key leaves every other key unchanged. -/
theorem lookup_insert_ne (st : List (String × Json)) (k k' : String) (v : Json)
    (h : k ≠ k') : lookupSetting (insertSetting st k v) k' = lookupSetting st k' := by
  induction st with
  | nil => simp [insertSetting, lookupSetting, h]
  | cons kv rest ih =>
    simp only [insertSetting]
    split
    · next hk =>
        have hne : ¬ kv.1 = k' := fun he => h (hk.symm.trans he)
        simp [lookupSetting, hne]
    · next hk =>
        simp only [lookupSetting]
        rw [ih]

/-- Folding entries that never mention `k` cannot change `k`'s value. -/
theorem lookup_foldl_of_not_mem (entries : List (String × Json)) (st : List (String × Json))
    (k : String) (hk : k ∉ entries.map Prod.fst) :
    lookupSetting (entries.foldl legacyStep st) k = lookupSetting st k := by
  induction entries generalizing st with
  | nil => rfl
  | cons kv rest ih =>
    simp only [List.map_cons, List.mem_cons] at hk
    push_neg at hk
    rw [List.foldl_cons, ih (legacyStep st kv) hk.2]
    unfold legacyStep
    split
    · rfl
    · exact lookup_insert_ne st kv.1 k kv.2 (fun he => hk.1 he.symm)

/-- Folding the legacy entries assigns each non-`null` entry's value
(assuming the entry object has unique keys, as `JSON.parse` output does). -/
theorem lookup_foldl_of_mem (entries : List (String × Json)) (st : List (String × Json))
    (k : String) (v : Json) (hmem : (k, v) ∈ entries)
    (hnodup : (entries.map Prod.fst).Nodup) (hv : v.isNull = false) :
    lookupSetting (entries.foldl legacyStep st) k = some v := by
  induction entries generalizing st with
  | nil => exact absurd hmem (List.not_mem_nil _)
  | cons kv rest ih =>
    simp only [List.map_cons, List.nodup_cons] at hnodup
    rw [List.foldl_cons]
    rcases List.mem_cons.mp hmem with heq | hrest
    · have hk : k ∉ rest.map Prod.fst := by
        rw [← heq] at hnodup; exact hnodup.1
      rw [lookup_foldl_of_not_mem rest (legacyStep st kv) k hk]
      rw [← heq]
      unfold legacyStep
      simp only [hv, Bool.false_eq_true, if_false]
      exact lookup_insert_self st k v
    · exact ih (legacyStep st kv) hrest hnodup.2

/-- Folding the legacy entries skips a `null` entry entirely (unique keys). -/
theorem lookup_foldl_of_null (entries : List (String × Json)) (st : List (String × Json))
    (k : String) (hmem : (k, Json.null) ∈ entries)
    (hnodup : (entries.map Prod.fst).Nodup) :
    lookupSetting (entries.foldl legacyStep st) k = lookupSetting st k := by
  induction entries generalizing st with
  | nil => exact absurd hmem (List.not_mem_nil _)
  | cons kv rest ih =>
    simp only [List.map_cons, List.nodup_cons] at hnodup
    rw [List.foldl_cons]
    rcases List.mem_cons.mp hmem with heq | hrest
    · have hk : k ∉ rest.map Prod.fst := by
        rw [← heq] at hnodup; exact hnodup.1
      rw [lookup_foldl_of_not_mem rest (legacyStep st kv) k hk, ← heq]
      unfold legacyStep
      simp [Json.isNull]
    · rw [ih (legacyStep st kv) hrest hnodup.2]
      unfold legacyStep
      split
      · rfl
      · refine lookup_insert_ne st kv.1 k kv.2 (fun he => ?_)
        have : kv.1 ∈ rest.map Prod.fst := by
          rw [he]
          exact List.mem_map_of_mem Prod.fst hrest
        exact hnodup.1 this

/-! ### Claim theorems -/

/-- C5: for every successfully parsed document, the `rawJson` field is
exactly the parsed JSON input value, with no transformation: normalization
stores the `JSON.parse` result verbatim (line 80 / line 216), and no
generator step can alter the immutable document. -/
theorem rawJson_verbatim (tok : Nat → String) (j : Json) (d : ParsedAgent)
    (h : parseAgent tok j = .ok d) : d.rawJson = j :=
  (parseAgent_ok_destruct tok j d h).2.2.2.2.2.1

/-- C5 witness: a concrete successful parse whose `rawJson` is the input. -/
theorem rawJson_verbatim_witness :
    ∃ d, parseAgent (fun _ => "") (Json.obj [("agent_id", Json.str "a1")]) = .ok d ∧
      d.rawJson = Json.obj [("agent_id", Json.str "a1")] :=
  ⟨_, rfl, rawJson_verbatim (fun _ => "") (Json.obj [("agent_id", Json.str "a1")]) _ rfl⟩

/-- C2 counterexample: the claim says the first *defined, non-null* path
wins, so on `{"agent_id": "", "id": "x"}` the id should be `""`; the code's
`||` chain skips the falsy empty string and yields `"x"` instead. -/
theorem id_chain_counterexample :
    (Json.obj [("agent_id", Json.str ""), ("id", Json.str "x")]).get? "agent_id"
        = some (Json.str "") ∧
    ∃ d, parseAgent (fun _ => "")
        (Json.obj [("agent_id", Json.str ""), ("id", Json.str "x")]) = .ok d ∧
      d.id = "x" ∧ "x" ≠ "" :=
  ⟨rfl, _, rfl, rfl, by decide⟩

/-- C2 (amended): for every parsed JSON object, the canonical id is the
first *truthy* value along `agent_id`, `id`, `agentId` (string-coerced),
and `"unknown"` when all are falsy — an empty string, `0`, `false` or
`null` falls through; analogously the name chain `agent_name`, `name`,
`agentName` with default `"Unnamed Agent"`. -/
theorem id_name_chain (tok : Nat → String) (fields : List (String × Json)) (d : ParsedAgent)
    (h : parseAgent tok (Json.obj fields) = .ok d) :
    d.id = (match firstTruthy [(Json.obj fields).get? "agent_id",
                (Json.obj fields).get? "id", (Json.obj fields).get? "agentId"] with
            | some v => jsToString v
            | none => "unknown") ∧
    d.name = (match firstTruthy [(Json.obj fields).get? "agent_name",
                (Json.obj fields).get? "name", (Json.obj fields).get? "agentName"] with
            | some v => jsToString v
            | none => "Unnamed Agent") := by
  obtain ⟨hid, hname, -⟩ := parseAgent_ok_destruct tok (Json.obj fields) d h
  constructor
  · rw [hid]; rfl
  · rw [hname]; rfl

/-- C2 witness: on `{"id": 7}` the second path wins and is string-coerced;
the name chain falls through to its default. -/
theorem id_name_chain_witness :
    ∃ d, parseAgent (fun _ => "") (Json.obj [("id", Json.num 7)]) = .ok d ∧
      d.id = "7" ∧ d.name = "Unnamed Agent" := by
  refine ⟨_, rfl, ?_, ?_⟩
  · exact (id_name_chain (fun _ => "") [("id", Json.num 7)] _ rfl).1
  · exact (id_name_chain (fun _ => "") [("id", Json.num 7)] _ rfl).2

/-- Non-throwing nodes parse successfully. -/
theorem parseNode_ok_of_good (tok : Nat → String) (i : Nat) (n : Json)
    (h : goodNodeJson n = true) : ∃ pn, parseNode tok i n = .ok pn := by
  simp only [goodNodeJson, Bool.and_eq_true, Bool.not_eq_true'] at h
  obtain ⟨⟨hnull, hedges⟩, hnext⟩ := h
  have hg : ∃ ges, genericEdgesOf n = .ok ges := by
    unfold genericEdgesOf
    split
    · next es heq =>
        rw [heq] at hedges
        obtain ⟨parts, hparts⟩ := mapM_ok_of_forall genericEdge es (fun e he => by
          have hen : e.isNull = false := by
            simpa using List.all_eq_true.mp hedges e he
          unfold genericEdge
          rw [hen]
          simp only [Bool.false_eq_true, if_false]
          split
          · exact ⟨_, rfl⟩
          · exact ⟨_, rfl⟩)
        exact ⟨parts.flatten, by rw [hparts]; rfl⟩
    · exact ⟨[], rfl⟩
  have hl : ∃ les, legacyEdgesOf n = .ok les := by
    unfold legacyEdgesOf
    split
    · next ns heq =>
        rw [heq] at hnext
        exact mapM_ok_of_forall legacyEdge ns (fun m hm => by
          have hmn : m.isNull = false := by
            simpa using List.all_eq_true.mp hnext m hm
          unfold legacyEdge
          rw [hmn]
          simp only [Bool.false_eq_true, if_false]
          exact ⟨_, rfl⟩)
    · exact ⟨[], rfl⟩
  obtain ⟨ges, hges⟩ := hg
  obtain ⟨les, hles⟩ := hl
  unfold parseNode
  rw [hnull]
  simp only [Bool.false_eq_true, if_false]
  rw [hges, hles]
  simp only [Bind.bind, Except.bind]
  exact ⟨_, rfl⟩

/-- C1 counterexample: the input text `"null"` is syntactically valid JSON,
yet normalization throws a `TypeError` (the very first property access,
`json.agent_id`, is on `null`) instead of succeeding — so `parseAgent` does
not succeed on every syntactically valid JSON input. -/
theorem parse_null_counterexample :
    parseAgent (fun _ => "") Json.null
      = .error "TypeError: cannot read properties of null (json)" := rfl

/-- C1 (amended): normalization succeeds — with the documented defaults for
absent fields, e.g. `{}` yields id `"unknown"`, name `"Unnamed Agent"`, no
nodes and empty settings — for every parsed JSON value that is not `null`
and whose three mapped collections (the node source chain, the tool source
chain, `post_call_analysis_data`) are each either defaulted or an array
without `null` elements; `parseSucceedsOn` states those conditions exactly. -/
theorem parse_total_on_good (tok : Nat → String) (j : Json)
    (h : parseSucceedsOn j = true) :
    (∃ d, parseAgent tok j = .ok d) ∧
    parseAgent tok (Json.obj [])
      = .ok ⟨"unknown", "Unnamed Agent", "", [], [], [], [], "", Json.obj []⟩ := by
  refine ⟨?_, rfl⟩
  simp only [parseSucceedsOn, Bool.and_eq_true, Bool.not_eq_true'] at h
  obtain ⟨⟨⟨hnull, hnodes⟩, htools⟩, hpca⟩ := h
  have hn : ∃ ns, parseNodes tok j = .ok ns := by
    unfold parseNodes
    unfold goodSource at hnodes
    split
    · exact ⟨[], rfl⟩
    · next xs heq =>
        rw [heq] at hnodes
        refine mapM_ok_of_forall _ _ (fun p hp => ?_)
        have hmem : p.2 ∈ xs := by
          have := List.of_mem_zip (by
            rw [← List.enum_eq_zip_range] at *
            exact hp)
          exact this.2
        exact parseNode_ok_of_good tok p.1 p.2
          (by simpa using List.all_eq_true.mp hnodes p.2 hmem)
    · next v hne heq =>
        rw [heq] at hnodes
        cases v <;> simp at hnodes <;> exact absurd rfl (hne _)
  have ht : ∃ ts, parseTools j = .ok ts := by
    unfold parseTools
    unfold goodSource at htools
    split
    · exact ⟨[], rfl⟩
    · next xs heq =>
        rw [heq] at htools
        refine mapM_ok_of_forall _ _ (fun t hmem => ?_)
        have htn : t.isNull = false := by
          simpa using List.all_eq_true.mp htools t hmem
        unfold parseTool
        rw [htn]
        simp only [Bool.false_eq_true, if_false]
        exact ⟨_, rfl⟩
    · next v hne heq =>
        rw [heq] at htools
        cases v <;> simp at htools <;> exact absurd rfl (hne _)
  have hp : ∃ ps, parsePostCall j = .ok ps := by
    unfold parsePostCall
    split
    · next v heq =>
        rw [heq] at hpca
        by_cases htr : v.truthy = true
        · rw [if_pos htr]
          cases v with
          | arr xs =>
              refine mapM_ok_of_forall _ _ (fun x hmem => ?_)
              have hall : (xs.all fun x => !x.isNull) = true := by
                simpa [htr] using hpca
              have hxn : x.isNull = false := by
                simpa using List.all_eq_true.mp hall x hmem
              unfold parseAnalysisField
              rw [hxn]
              simp only [Bool.false_eq_true, if_false]
              exact ⟨_, rfl⟩
          | null => simp [Json.truthy] at htr
          | bool b => simp [htr] at hpca
          | num n => simp [htr] at hpca
          | str s => simp [htr] at hpca
          | obj fs => simp [htr] at hpca
        · rw [if_neg htr]
          exact ⟨[], rfl⟩
    · exact ⟨[], rfl⟩
  obtain ⟨ns, hns⟩ := hn
  obtain ⟨ts, hts⟩ := ht
  obtain ⟨ps, hps⟩ := hp
  unfold parseAgent
  rw [hnull]
  simp only [Bool.false_eq_true, if_false]
  rw [hns, hts, hps]
  simp only [Bind.bind, Except.bind]
  exact ⟨_, rfl⟩

/-- C1 witness: a concrete well-formed input on which the amended totality
theorem applies. -/
theorem parse_total_on_good_witness :
    parseSucceedsOn (Json.obj [("nodes", Json.arr [Json.obj []])]) = true ∧
    (∃ d, parseAgent (fun _ => "") (Json.obj [("nodes", Json.arr [Json.obj []])]) = .ok d) ∧
    parseAgent (fun _ => "") (Json.obj [])
      = .ok ⟨"unknown", "Unnamed Agent", "", [], [], [], [], "", Json.obj []⟩ :=
  ⟨rfl, (parse_total_on_good (fun _ => "") (Json.obj [("nodes", Json.arr [Json.obj []])]) rfl).1,
    (parse_total_on_good (fun _ => "") (Json.obj [("nodes", Json.arr [Json.obj []])]) rfl).2⟩

/-- C3: when the input has a legacy `settings` object (with the unique keys
`JSON.parse` guarantees), every entry whose value is not `null` ends up in
the final settings map with exactly the legacy value — overwriting any
named-probe key — and every `null`-valued entry is skipped, leaving the
named-probe result for that key untouched. -/
theorem legacy_settings_win (tok : Nat → String) (j : Json)
    (sf : List (String × Json)) (d : ParsedAgent)
    (hs : j.get? "settings" = some (Json.obj sf))
    (hnodup : (sf.map Prod.fst).Nodup)
    (hok : parseAgent tok j = .ok d) :
    ∀ k v, (k, v) ∈ sf →
      (v.isNull = false → lookupSetting d.settings k = some v) ∧
      (v = Json.null → lookupSetting d.settings k = lookupSetting (namedSettings j) k) := by
  have hset : d.settings = buildSettings j :=
    (parseAgent_ok_destruct tok j d hok).2.2.2.1
  have hbuild : buildSettings j = sf.foldl legacyStep (namedSettings j) := by
    unfold buildSettings mergeLegacySettings
    rw [hs]
    simp only [Json.truthy, if_true]
    rfl
  intro k v hmem
  constructor
  · intro hv
    rw [hset, hbuild]
    exact lookup_foldl_of_mem sf (namedSettings j) k v hmem hnodup hv
  · intro hv
    rw [hset, hbuild]
    subst hv
    exact lookup_foldl_of_null sf (namedSettings j) k hmem hnodup

/-- C3 witness: on a document whose `conversationFlow` sets `model` to
`"claude"` and whose legacy settings object sets `model` to `"gpt"` and
`x` to `null`, the final map holds the legacy `"gpt"` and no `x`. -/
theorem legacy_settings_win_witness :
    ∃ d, parseAgent (fun _ => "")
        (Json.obj [("conversationFlow",
            Json.obj [("model_choice", Json.obj [("model", Json.str "claude")])]),
          ("settings", Json.obj [("model", Json.str "gpt"), ("x", Json.null)])]) = .ok d ∧
      lookupSetting d.settings "model" = some (Json.str "gpt") ∧
      lookupSetting d.settings "x" = none := by
  refine ⟨_, rfl, ?_, ?_⟩
  · have h := legacy_settings_win (fun _ => "")
      (Json.obj [("conversationFlow",
          Json.obj [("model_choice", Json.obj [("model", Json.str "claude")])]),
        ("settings", Json.obj [("model", Json.str "gpt"), ("x", Json.null)])])
      [("model", Json.str "gpt"), ("x", Json.null)]
      _ rfl (by simp) rfl "model" (Json.str "gpt") (by simp)
    exact (h.1 rfl).trans rfl
  · have h := legacy_settings_win (fun _ => "")
      (Json.obj [("conversationFlow",
          Json.obj [("model_choice", Json.obj [("model", Json.str "claude")])]),
        ("settings", Json.obj [("model", Json.str "gpt"), ("x", Json.null)])])
      [("model", Json.str "gpt"), ("x", Json.null)]
      _ rfl (by simp) rfl "x" Json.null (by simp)
    exact (h.2 rfl).trans rfl

/-- A successful node parse decomposes into the four edge sources and the
per-field chains. -/
theorem parseNode_ok_destruct (tok : Nat → String) (i : Nat) (node : Json) (pn : AgentNode)
    (h : parseNode tok i node = .ok pn) :
    ∃ ges les, genericEdgesOf node = .ok ges ∧ legacyEdgesOf node = .ok les ∧
      pn.next = ges ++ elseEdgeOf node ++ skipEdgeOf node ++ les ∧
      pn.id = chainStr [node.get? "id", node.get? "node_id", node.get? "nodeId"]
        ("node_" ++ tok i) := by
  unfold parseNode at h
  split at h
  · exact absurd h (by simp)
  · cases hg : genericEdgesOf node with
    | error e => rw [hg] at h; simp [Bind.bind, Except.bind] at h
    | ok ges =>
      cases hl : legacyEdgesOf node with
      | error e => rw [hg, hl] at h; simp [Bind.bind, Except.bind] at h
      | ok les =>
        rw [hg, hl] at h
        simp only [Bind.bind, Except.bind, Pure.pure, Except.pure, Except.ok.injEq] at h
        subst h
        exact ⟨ges, les, rfl, rfl, by simp [List.append_assoc], rfl⟩

/-- C4: for every parsed node, the `next` sequence is exactly the
concatenation — in this order, without deduplication — of (1) the edges
from the generic `edges` collection (entries with no truthy target skipped),
(2) the `"Else"` edge when the else-edge target is truthy, (3) the
`"Skip Response"` edge when the skip-response-edge target is truthy, and
(4) one edge per legacy flat `next` entry resolved by its own chain. -/
theorem edge_aggregation_order (tok : Nat → String) (i : Nat) (node : Json)
    (pn : AgentNode) (ges les : List AgentCondition)
    (hg : genericEdgesOf node = .ok ges) (hl : legacyEdgesOf node = .ok les)
    (h : parseNode tok i node = .ok pn) :
    pn.next = ges ++ elseEdgeOf node ++ skipEdgeOf node ++ les := by
  obtain ⟨ges', les', hg', hl', hnext, -⟩ := parseNode_ok_destruct tok i node pn h
  rw [hg'] at hg
  rw [hl'] at hl
  cases hg
  cases hl
  exact hnext

/-- C4 witness: a node with all four edge sources, aggregated in order. -/
theorem edge_aggregation_order_witness :
    ∃ pn, parseNode (fun _ => "") 0 (Json.obj [
        ("edges", Json.arr [
          Json.obj [("destination_node_id", Json.str "n2"),
                    ("transition_condition", Json.obj [("prompt", Json.str "ok?")])],
          Json.obj [("condition", Json.str "dropped")]]),
        ("else_edge", Json.obj [("destination_node_id", Json.str "n3")]),
        ("skip_response_edge", Json.obj [("destination_node_id", Json.str "n4")]),
        ("next", Json.arr [Json.obj [("label", Json.str "leg")]])]) = .ok pn ∧
      pn.next = [⟨"ok?", "n2"⟩, ⟨"Else", "n3"⟩, ⟨"Skip Response", "n4"⟩, ⟨"leg", ""⟩] := by
  refine ⟨_, rfl, ?_⟩
  exact (edge_aggregation_order (fun _ => "") 0 (Json.obj [
      ("edges", Json.arr [
        Json.obj [("destination_node_id", Json.str "n2"),
                  ("transition_condition", Json.obj [("prompt", Json.str "ok?")])],
        Json.obj [("condition", Json.str "dropped")]]),
      ("else_edge", Json.obj [("destination_node_id", Json.str "n3")]),
      ("skip_response_edge", Json.obj [("destination_node_id", Json.str "n4")]),
      ("next", Json.arr [Json.obj [("label", Json.str "leg")]])])
    _ _ _ rfl rfl rfl).trans rfl

/-- C6: the connection lines of `toDiagram` are exactly one line per edge
whose target is non-empty — an edge whose `targetNodeId` is the empty string
is skipped entirely and contributes no output line. -/
theorem mermaid_skips_empty_targets (p : ParsedAgent) :
    mermaidConnLines p
      = p.nodes.flatMap (fun n =>
          (n.next.filter (fun c => c.targetNodeId != "")).map (mermaidEdgeText n.id)) := by
  unfold mermaidConnLines
  have hnode : ∀ n : AgentNode,
      n.next.filterMap (mermaidEdgeLine n.id)
        = (n.next.filter (fun c => c.targetNodeId != "")).map (mermaidEdgeText n.id) := by
    intro n
    induction n.next with
    | nil => rfl
    | cons c cs ih =>
      by_cases hc : c.targetNodeId = ""
      · simp [List.filterMap_cons, List.filter_cons, mermaidEdgeLine, hc, ih]
      · simp [List.filterMap_cons, List.filter_cons, mermaidEdgeLine, hc, ih]
  simp only [hnode]

/-- C9: node shapes are selected by the first matching rule, in the fixed
order type `"end"` (rounded terminal), id containing `"start"` (circle),
type `"branch"` (diamond), type `"function"` (parallelogram), otherwise
rectangle; in particular a node of type `"end"` whose id contains `"start"`
(last conjunct, id `"start_end"`) still renders with the rounded terminal
shape. -/
theorem mermaid_shape_rule (n : AgentNode) :
    mermaidNodeDecl n = "  " ++ sanitizeMermaidId n.id ++ mermaidShape n ∧
    mermaidShape n =
      (if n.type = "end" then "([" ++ sanitizeText 25 n.name ++ "])"
       else if jsIncludes n.id "start" then "((" ++ sanitizeText 25 n.name ++ "))"
       else if n.type = "branch" then "\x7b" ++ sanitizeText 25 n.name ++ "\x7d"
       else if n.type = "function" then "[/" ++ sanitizeText 25 n.name ++ "/]"
       else "[" ++ sanitizeText 25 n.name ++ "]") ∧
    jsIncludes "start_end" "start" = true ∧
    mermaidShape ⟨"start_end", "Done", "end", "", [], []⟩ = "([Done])" :=
  ⟨rfl, rfl, by decide, by decide⟩

/-- C7 counterexample: on a document with zero nodes the generator emits
`*No nodes found in this agent.*` instead of a node-count line — no physical
output line reads `Total nodes: 0`, so the claim's standalone count line is
absent (while the first line is still `# <name>`). -/
theorem markdown_count_counterexample :
    ((splitLines (generateMarkdown ⟨"unknown", "Agent", "", [], [], [], [], "",
        Json.obj []⟩)).contains "Total nodes: 0") = false ∧
    (splitLines (generateMarkdown ⟨"unknown", "Agent", "", [], [], [], [], "",
        Json.obj []⟩)).head? = some "# Agent" := by
  constructor
  · decide
  · decide

/-- C7 (amended): for every document, `toMarkdown` output begins with
`# <name>` followed by a newline (the title is the first pushed line), and
— when the node list is non-empty — the pushed lines contain the standalone
line `Total nodes: <n>` with `n` the length of `nodes`; a document with zero
nodes gets a placeholder instead of a count line. -/
theorem markdown_header_and_count (p : ParsedAgent) :
    (∃ rest, generateMarkdown p = "# " ++ p.name ++ "\n" ++ rest) ∧
    (p.nodes ≠ [] → ("Total nodes: " ++ toString p.nodes.length) ∈ markdownLines p) := by
  constructor
  · have hml : markdownLines p = ("# " ++ p.name) :: "" ::
        (mdOverview p ++ mdSettings p ++ mdGlobal p ++ mdNodesSection p ++ mdDiagram p
          ++ mdPrompts p ++ mdTools p ++ mdPca p ++ mdRawJson p) := by
      simp [markdownLines, mdHeader]
    refine ⟨joinLines ("" :: (mdOverview p ++ mdSettings p ++ mdGlobal p ++ mdNodesSection p
        ++ mdDiagram p ++ mdPrompts p ++ mdTools p ++ mdPca p ++ mdRawJson p)), ?_⟩
    rw [generateMarkdown, hml]
    simp [joinLines, String.append_assoc]
  · intro hne
    have hemp : p.nodes.isEmpty = false := by
      cases hp : p.nodes with
      | nil => exact absurd hp hne
      | cons a t => rfl
    have hmem : ("Total nodes: " ++ toString p.nodes.length) ∈ mdNodesSection p := by
      unfold mdNodesSection
      refine List.mem_append_right _ ?_
      rw [hemp]
      simp
    unfold markdownLines
    exact List.mem_append_left _ (List.mem_append_left _ (List.mem_append_left _
      (List.mem_append_left _ (List.mem_append_left _ (List.mem_append_right _ hmem)))))

/-- C7 witness: a one-node document, with the header prefix and the
`Total nodes: 1` line. -/
theorem markdown_header_and_count_witness :
    (∃ rest, generateMarkdown ⟨"unknown", "One", "", [],
        [⟨"n1", "N", "conversation", "", [], []⟩], [], [], "", Json.obj []⟩
      = "# " ++ "One" ++ "\n" ++ rest) ∧
    "Total nodes: 1" ∈ markdownLines ⟨"unknown", "One", "", [],
        [⟨"n1", "N", "conversation", "", [], []⟩], [], [], "", Json.obj []⟩ := by
  constructor
  · exact (markdown_header_and_count ⟨"unknown", "One", "", [],
      [⟨"n1", "N", "conversation", "", [], []⟩], [], [], "", Json.obj []⟩).1
  · have h := (markdown_header_and_count ⟨"unknown", "One", "", [],
      [⟨"n1", "N", "conversation", "", [], []⟩], [], [], "", Json.obj []⟩).2 (by simp)
    exact h

/-- Reading an appended settings list: the left part wins when it has the key. -/
theorem lookup_append (a b : List (String × Json)) (k : String) :
    lookupSetting (a ++ b) k = match lookupSetting a k with
      | some v => some v
      | none => lookupSetting b k := by
  induction a with
  | nil => rfl
  | cons kv rest ih =>
    by_cases h : kv.1 = k
    · simp [lookupSetting, h]
    · simp [lookupSetting, h, ih]

/-- A named probe for a different key never answers. -/
theorem lookup_probe_ne (k k' : String) (v : Option Json) (h : ¬ k = k') :
    lookupSetting (settingsProbe k v) k' = none := by
  cases v with
  | none => rfl
  | some j =>
    by_cases ht : j.truthy = true
    · have h1 : settingsProbe k (some j) = [(k, j)] := by
        unfold settingsProbe
        simp [ht]
      rw [h1]
      simp [lookupSetting, h]
    · have h1 : settingsProbe k (some j) = [] := by
        unfold settingsProbe
        simp [ht]
      rw [h1]
      rfl

/-- The temperature probe never answers for another key. -/
theorem lookup_tempProbe_ne (k : String) (v : Option Json) (h : ¬ "temperature" = k) :
    lookupSetting (tempProbe v) k = none := by
  cases v with
  | none => rfl
  | some j =>
    unfold tempProbe
    simp [lookupSetting, h]

/-- A duration probe for a different key never answers. -/
theorem lookup_durProbe_ne (k k' : String) (v : Option Json) (h : ¬ k = k') :
    lookupSetting (durationProbe k v) k' = none := by
  cases v with
  | none => rfl
  | some j =>
    cases j with
    | num n =>
      by_cases hz : n = 0
      · subst hz
        rfl
      · have h1 : durationProbe k (some (Json.num n)) = [(k, Json.str (formatDuration n))] := by
          unfold durationProbe
          simp [hz]
        rw [h1]
        simp [lookupSetting, h]
    | null => rfl
    | bool b => rfl
    | str s => rfl
    | arr xs => rfl
    | obj fs => rfl

/-- A duration probe stores the formatted duration under its own key. -/
theorem lookup_durProbe_self (k : String) (n : Int) (hn : n ≠ 0) :
    lookupSetting (durationProbe k (some (Json.num n))) k
      = some (Json.str (formatDuration n)) := by
  have h1 : durationProbe k (some (Json.num n)) = [(k, Json.str (formatDuration n))] := by
    unfold durationProbe
    simp [hn]
  rw [h1]
  simp [lookupSetting]

/-- C8 counterexample: a duration of `0` milliseconds is present in the
input, but the truthiness guard `if (json.max_call_duration_ms)` skips it,
so no `"0ms"` setting is stored (the claim requires one for every present
value). -/
theorem duration_zero_counterexample :
    ∃ d, parseAgent (fun _ => "") (Json.obj [("max_call_duration_ms", Json.num 0)]) = .ok d ∧
      lookupSetting d.settings "maxCallDuration" = none :=
  ⟨_, rfl, rfl⟩

/-- C8 (amended): for each of the three millisecond durations present with
a nonzero (truthy) numeric value — and absent a legacy `settings` object,
which could overwrite the keys — the stored setting string follows the
documented rule: `"<n>ms"` below 1000, `"<n/1000 rounded>s"` below 60000,
otherwise `"<n/60000 to one decimal> min"` (rounding half up; at exact
half-tenth boundaries JavaScript's `toFixed` follows the IEEE-754 double
representation instead). -/
theorem duration_settings_rule (tok : Nat → String) (j : Json) (d : ParsedAgent)
    (hok : parseAgent tok j = .ok d) (hs : j.get? "settings" = none) :
    (∀ n : Int, j.get? "max_call_duration_ms" = some (Json.num n) → n ≠ 0 →
      lookupSetting d.settings "maxCallDuration" = some (Json.str
        (if n < 1000 then toString n ++ "ms"
         else if n < 60000 then toString (roundHalfUp n 1000) ++ "s"
         else toString (roundHalfUp n 6000 / 10) ++ "."
              ++ toString (roundHalfUp n 6000 % 10) ++ " min"))) ∧
    (∀ n : Int, j.get? "reminder_trigger_ms" = some (Json.num n) → n ≠ 0 →
      lookupSetting d.settings "reminderTrigger" = some (Json.str
        (if n < 1000 then toString n ++ "ms"
         else if n < 60000 then toString (roundHalfUp n 1000) ++ "s"
         else toString (roundHalfUp n 6000 / 10) ++ "."
              ++ toString (roundHalfUp n 6000 % 10) ++ " min"))) ∧
    (∀ n : Int, j.get? "end_call_after_silence_ms" = some (Json.num n) → n ≠ 0 →
      lookupSetting d.settings "endCallAfterSilence" = some (Json.str
        (if n < 1000 then toString n ++ "ms"
         else if n < 60000 then toString (roundHalfUp n 1000) ++ "s"
         else toString (roundHalfUp n 6000 / 10) ++ "."
              ++ toString (roundHalfUp n 6000 % 10) ++ " min"))) := by
  have hset : d.settings = namedSettings j := by
    rw [(parseAgent_ok_destruct tok j d hok).2.2.2.1]
    unfold buildSettings mergeLegacySettings
    rw [hs]
  have hfmt : ∀ n : Int, formatDuration n =
      (if n < 1000 then toString n ++ "ms"
       else if n < 60000 then toString (roundHalfUp n 1000) ++ "s"
       else toString (roundHalfUp n 6000 / 10) ++ "."
            ++ toString (roundHalfUp n 6000 % 10) ++ " min") := fun n => rfl
  refine ⟨?_, ?_, ?_⟩ <;> intro n hn hnz <;> rw [hset, ← hfmt n] <;>
    unfold namedSettings <;>
    simp [lookup_append, lookup_probe_ne, lookup_tempProbe_ne, lookup_durProbe_ne,
      hn, lookup_durProbe_self _ n hnz]

/-- C8 witness: the three duration fields at 90000, 500 and 2500
milliseconds render as `1.5 min`, `500ms` and `3s`. -/
theorem duration_settings_rule_witness :
    ∃ d, parseAgent (fun _ => "") (Json.obj [("max_call_duration_ms", Json.num 90000),
        ("reminder_trigger_ms", Json.num 500),
        ("end_call_after_silence_ms", Json.num 2500)]) = .ok d ∧
      lookupSetting d.settings "maxCallDuration" = some (Json.str "1.5 min") ∧
      lookupSetting d.settings "reminderTrigger" = some (Json.str "500ms") ∧
      lookupSetting d.settings "endCallAfterSilence" = some (Json.str "3s") := by
  refine ⟨_, rfl, ?_, ?_, ?_⟩
  · exact ((duration_settings_rule (fun _ => "")
      (Json.obj [("max_call_duration_ms", Json.num 90000),
        ("reminder_trigger_ms", Json.num 500),
        ("end_call_after_silence_ms", Json.num 2500)]) _ rfl rfl).1 90000 rfl
      (by decide)).trans rfl
  · exact ((duration_settings_rule (fun _ => "")
      (Json.obj [("max_call_duration_ms", Json.num 90000),
        ("reminder_trigger_ms", Json.num 500),
        ("end_call_after_silence_ms", Json.num 2500)]) _ rfl rfl).2.1 500 rfl
      (by decide)).trans rfl
  · exact ((duration_settings_rule (fun _ => "")
      (Json.obj [("max_call_duration_ms", Json.num 90000),
        ("reminder_trigger_ms", Json.num 500),
        ("end_call_after_silence_ms", Json.num 2500)]) _ rfl rfl).2.2 2500 rfl
      (by decide)).trans rfl

/-- C10: a legacy `next` entry none of whose target paths is truthy still
yields an edge — with `targetNodeId = ""` — in the canonical model (the
generic `edges` source, by contrast, drops target-less entries, last
conjunct); that edge is rendered in the Markdown and HTML node-table cells
(which map over all of `next`, unfiltered) but produces no diagram edge
line. -/
theorem legacy_edge_empty_target (tok : Nat → String) (i : Nat) (node entry : Json)
    (ns : List Json) (pn : AgentNode)
    (hnext : node.get? "next" = some (Json.arr ns))
    (hmem : entry ∈ ns)
    (hentry : entry.isNull = false)
    (hfalsy : firstTruthy [entry.get? "targetNodeId", entry.get? "target",
        entry.get? "next_node", entry.get? "nextNode"] = none)
    (hok : parseNode tok i node = .ok pn) :
    ∃ e : AgentCondition, e ∈ pn.next ∧ e.targetNodeId = "" ∧
      legacyEdge entry = .ok e ∧
      mdEdgeText e ∈ pn.next.map mdEdgeText ∧
      htmlEdgeSpan e ∈ pn.next.map htmlEdgeSpan ∧
      (∀ srcId : String, mermaidEdgeLine srcId e = none) ∧
      (∀ ej : Json, ej.isNull = false →
        firstTruthy [ej.get? "destination_node_id", ej.get? "targetNodeId",
          ej.get? "target", ej.get? "next_node"] = none →
        genericEdge ej = .ok []) := by
  obtain ⟨ges, les, hg, hl, hnexteq, -⟩ := parseNode_ok_destruct tok i node pn hok
  have hedge : legacyEdge entry
      = .ok ⟨chainStr [entry.get? "condition", entry.get? "label", entry.get? "trigger"]
          "default", ""⟩ := by
    unfold legacyEdge
    rw [hentry]
    simp only [Bool.false_eq_true, if_false]
    unfold chainStr
    rw [hfalsy]
  have hles : legacyEdgesOf node = .ok les := hl
  have hlmem : (⟨chainStr [entry.get? "condition", entry.get? "label", entry.get? "trigger"]
      "default", ""⟩ : AgentCondition) ∈ les := by
    have : legacyEdgesOf node = List.mapM legacyEdge ns := by
      unfold legacyEdgesOf
      rw [hnext]
    rw [this] at hles
    exact mapM_ok_mem legacyEdge ns les hles entry hmem _ hedge
  refine ⟨_, ?_, rfl, hedge, ?_, ?_, ?_, ?_⟩
  · rw [hnexteq]
    exact List.mem_append_right _ hlmem
  · exact List.mem_map_of_mem mdEdgeText (by
      rw [hnexteq]; exact List.mem_append_right _ hlmem)
  · exact List.mem_map_of_mem htmlEdgeSpan (by
      rw [hnexteq]; exact List.mem_append_right _ hlmem)
  · intro srcId
    rfl
  · intro ej hej hft
    unfold genericEdge
    rw [hej]
    simp only [Bool.false_eq_true, if_false]
    rw [hft]

/-- C10 witness: a node whose only edge source is a legacy `next` entry
with no resolvable target. -/
theorem legacy_edge_empty_target_witness :
    ∃ e : AgentCondition,
      e ∈ (AgentNode.next ⟨"n1", "Unnamed Node", "unknown", "", [],
        [⟨"maybe", ""⟩]⟩) ∧ e.targetNodeId = "" ∧
      legacyEdge (Json.obj [("condition", Json.str "maybe")]) = .ok e ∧
      mdEdgeText e ∈ (List.map mdEdgeText [⟨"maybe", ""⟩]) ∧
      htmlEdgeSpan e ∈ (List.map htmlEdgeSpan [⟨"maybe", ""⟩]) ∧
      (∀ srcId : String, mermaidEdgeLine srcId e = none) ∧
      (∀ ej : Json, ej.isNull = false →
        firstTruthy [ej.get? "destination_node_id", ej.get? "targetNodeId",
          ej.get? "target", ej.get? "next_node"] = none →
        genericEdge ej = .ok []) := by
  have h := legacy_edge_empty_target (fun _ => "") 0
    (Json.obj [("next", Json.arr [Json.obj [("condition", Json.str "maybe")]])])
    (Json.obj [("condition", Json.str "maybe")])
    [Json.obj [("condition", Json.str "maybe")]]
    ⟨"node_", "Unnamed Node", "unknown", "", [], [⟨"maybe", ""⟩]⟩
    rfl (by simp) rfl rfl rfl
  obtain ⟨e, hmem, htgt, hedge, hmd, hhtml, hmerm, hgen⟩ := h
  exact ⟨e, hmem, htgt, hedge, hmd, hhtml, hmerm, hgen⟩
